import Mathlib

/-!
Verification of the audio fingerprinting and matching engine.

The source is a JavaScript class; its numeric computations (IEEE doubles)
are modelled over the reals, arrays over lists, and the `for` loops either
as folds and finite sums over their index ranges or as structural
recursions on the loop counter.  Out-of-range array reads, which in the
source yield `undefined` and are then mapped to `0` by the `|| 0` guards,
are modelled by `List.getD _ _ 0` / a zero default feature frame.
-/

namespace WhatWasThat

/-- One frame of per-window acoustic features, mirroring the twelve named
fields the extractor stores per window. -/
structure Features where
  energy : ℝ
  zcr : ℝ
  spectralCentroid : ℝ
  spectralFlux : ℝ
  spectralRolloff : ℝ
  subBass : ℝ
  bass : ℝ
  lowMid : ℝ
  mid : ℝ
  highMid : ℝ
  presence : ℝ
  brilliance : ℝ

/-- The all-zero feature frame; this is what the comparison loop reads
(via the `|| 0` guards) for a frame index outside the fingerprint. -/
def zeroFeatures : Features :=
  ⟨0, 0, 0, 0, 0, 0, 0, 0, 0, 0, 0, 0⟩

/-- A fingerprint is the ordered list of per-window feature frames. -/
abbrev Fingerprint := List Features

/-- Frame lookup used by the comparator: out of range reads resolve to
the zero frame, matching the source where `fp[j]` is `undefined` and each
feature read is guarded by `|| 0`. -/
def getF (fp : Fingerprint) (i : ℕ) : Features :=
  fp.getD i zeroFeatures

/-- Weight of `energy` in the comparison (source weight table). -/
def wEnergy : ℝ := 0.03
/-- Weight of `zcr`. -/
def wZcr : ℝ := 0.05
/-- Weight of `spectralCentroid`. -/
def wSpectralCentroid : ℝ := 0.05
/-- Weight of `spectralFlux`. -/
def wSpectralFlux : ℝ := 0.04
/-- Weight of `spectralRolloff`. -/
def wSpectralRolloff : ℝ := 0.04
/-- Weight of `subBass`. -/
def wSubBass : ℝ := 0.12
/-- Weight of `bass`. -/
def wBass : ℝ := 0.14
/-- Weight of `lowMid`. -/
def wLowMid : ℝ := 0.13
/-- Weight of `mid`. -/
def wMid : ℝ := 0.15
/-- Weight of `highMid`. -/
def wHighMid : ℝ := 0.11
/-- Weight of `presence`. -/
def wPresence : ℝ := 0.08
/-- Weight of `brilliance`. -/
def wBrilliance : ℝ := 0.06

/-- The source weight table, in its iteration order. -/
def weightTable : List ℝ :=
  [wEnergy, wZcr, wSpectralCentroid, wSpectralFlux, wSpectralRolloff,
   wSubBass, wBass, wLowMid, wMid, wHighMid, wPresence, wBrilliance]

/-- Per-feature similarity of two values: the normalized absolute
difference `|v1 - v2| / max |v1| |v2| 0.001` is turned into a similarity
by `exp (-normalizedDiff * 1.5)`, exactly as in the comparison loop body. -/
noncomputable def featSim (v1 v2 : ℝ) : ℝ :=
  Real.exp (-(|v1 - v2| / max (max |v1| |v2|) 0.001) * 1.5)

/-- Weighted per-frame similarity: the inner `for (feature, weight)` loop
of `compareFingerprintsWithOffset`, one term per weight-table entry. -/
noncomputable def frameSim (f1 f2 : Features) : ℝ :=
  featSim f1.energy f2.energy * wEnergy
  + featSim f1.zcr f2.zcr * wZcr
  + featSim f1.spectralCentroid f2.spectralCentroid * wSpectralCentroid
  + featSim f1.spectralFlux f2.spectralFlux * wSpectralFlux
  + featSim f1.spectralRolloff f2.spectralRolloff * wSpectralRolloff
  + featSim f1.subBass f2.subBass * wSubBass
  + featSim f1.bass f2.bass * wBass
  + featSim f1.lowMid f2.lowMid * wLowMid
  + featSim f1.mid f2.mid * wMid
  + featSim f1.highMid f2.highMid * wHighMid
  + featSim f1.presence f2.presence * wPresence
  + featSim f1.brilliance f2.brilliance * wBrilliance

/-- `compareFingerprintsWithOffset(fp1, fp2, offset)`: aligned overlap
length is `min len1 len2 - |offset|`; non-positive overlap scores `0`;
otherwise the weighted per-frame similarities over the aligned range,
starting at `max 0 offset` in `fp1` and `max 0 (-offset)` in `fp2`, are
averaged over the overlap length. -/
noncomputable def compareFingerprintsWithOffset
    (fp1 fp2 : Fingerprint) (offset : ℤ) : ℝ :=
  let len : ℤ := (min fp1.length fp2.length : ℤ) - |offset|
  if len ≤ 0 then 0
  else
    let start1 := (max 0 offset).toNat
    let start2 := (max 0 (-offset)).toNat
    (∑ i in Finset.range len.toNat,
        frameSim (getF fp1 (start1 + i)) (getF fp2 (start2 + i))) / (len : ℝ)

/-- `maxOffset = min(10, floor(len * 0.05))` with `len` the shorter
fingerprint length; `floor (len * 0.05)` agrees with `len / 20` in ℕ on
every length for which the `min` with 10 is not already saturated. -/
def fpMaxOffset (fp1 fp2 : Fingerprint) : ℕ :=
  min 10 (min fp1.length fp2.length / 20)

/-- The non-zero offsets visited by the source loop
`for (offset = -maxOffset; offset <= maxOffset; offset += 5)`, i.e. the
arithmetic progression from `-maxOffset` with step 5 bounded by
`maxOffset`, with the `offset === 0` iteration skipped by `continue`. -/
def offsetCandidates (maxOffset : ℕ) : List ℤ :=
  ((List.range (2 * maxOffset / 5 + 1)).map
      (fun k : ℕ => -(maxOffset : ℤ) + 5 * (k : ℤ))).filter (fun o => o != 0)

/-- `compareFingerprints(fp1, fp2)`: score at zero offset first, then
fold the loop offsets with `bestScore = max(bestScore, score)`. -/
noncomputable def compareFingerprints (fp1 fp2 : Fingerprint) : ℝ :=
  (offsetCandidates (fpMaxOffset fp1 fp2)).foldl
    (fun best o => max best (compareFingerprintsWithOffset fp1 fp2 o))
    (compareFingerprintsWithOffset fp1 fp2 0)

/-- `applyHannWindow`: each sample is scaled by the raised-cosine taper
`0.5 * (1 - cos (2 π i / (N - 1)))`. -/
noncomputable def applyHannWindow (samples : List ℝ) : List ℝ :=
  (List.range samples.length).map (fun i =>
    samples.getD i 0 *
      (0.5 * (1 - Real.cos (2 * Real.pi * i / ((samples.length : ℝ) - 1)))))

/-- `simpleFFT`: magnitude at the first `min 128 (N / 2)` bins by direct
summation over every 4th sample; the `real`/`imag` accumulators of the
inner loop become sums over the visited indices `4 * n`,
`n < ceil (N / 4)`, and the magnitude is divided by the real `N / 4`. -/
noncomputable def simpleFFT (samples : List ℝ) : List ℝ :=
  let N := samples.length
  let numBins := min 128 (N / 2)
  (List.range numBins).map (fun k =>
    let freq := 2 * Real.pi * k / N
    let re := ∑ n in Finset.range ((N + 3) / 4),
        samples.getD (4 * n) 0 * Real.cos (freq * (4 * n))
    let im := ∑ n in Finset.range ((N + 3) / 4),
        -(samples.getD (4 * n) 0 * Real.sin (freq * (4 * n)))
    Real.sqrt (re ^ 2 + im ^ 2) / ((N : ℝ) / 4))

/-- `calculateEnergy`: RMS of the samples. -/
noncomputable def calculateEnergy (samples : List ℝ) : ℝ :=
  Real.sqrt
    ((∑ i in Finset.range samples.length, samples.getD i 0 ^ 2) /
      (samples.length : ℝ))

/-- `calculateZeroCrossingRate`: the count of indices `1 ≤ i < N` at
which the sample sign class (`≥ 0` versus `< 0`) differs from that of the
previous sample, divided by `N`. -/
noncomputable def calculateZeroCrossingRate (samples : List ℝ) : ℝ :=
  (((Finset.Ico 1 samples.length).filter (fun i =>
      (0 ≤ samples.getD i 0 ∧ samples.getD (i - 1) 0 < 0) ∨
      (samples.getD i 0 < 0 ∧ 0 ≤ samples.getD (i - 1) 0))).card : ℝ) /
    (samples.length : ℝ)

/-- `calculateSpectralCentroid`: amplitude-weighted mean of the bin
frequencies `(i / numBins) * nyquist`; `0` when the total is not
positive (the source tests `sum > 0`). -/
noncomputable def calculateSpectralCentroid
    (spectrum : List ℝ) (sampleRate : ℝ) : ℝ :=
  let nyquist := sampleRate / 2
  let weightedSum := ∑ i in Finset.range spectrum.length,
      (i : ℝ) / (spectrum.length : ℝ) * nyquist * spectrum.getD i 0
  let total := ∑ i in Finset.range spectrum.length, spectrum.getD i 0
  if 0 < total then weightedSum / total else 0

/-- `calculateSpectralFluxBetween`: RMS of binwise differences over the
shorter of the two spectra. -/
noncomputable def calculateSpectralFluxBetween
    (spectrum1 spectrum2 : List ℝ) : ℝ :=
  let len := min spectrum1.length spectrum2.length
  Real.sqrt
    ((∑ i in Finset.range len,
        (spectrum1.getD i 0 - spectrum2.getD i 0) ^ 2) / (len : ℝ))

/-- The scanning loop of `calculateSpectralRolloff`: accumulate bins from
index `i` upward and return the bin frequency on first reaching the
threshold, or the Nyquist frequency if the scan runs off the end. -/
noncomputable def rolloffLoop (spectrum : List ℝ) (nyquist threshold : ℝ)
    (cumulative : ℝ) (i : ℕ) : ℝ :=
  if h : i < spectrum.length then
    let c := cumulative + spectrum.getD i 0
    if threshold ≤ c then (i : ℝ) / (spectrum.length : ℝ) * nyquist
    else rolloffLoop spectrum nyquist threshold c (i + 1)
  else nyquist
termination_by spectrum.length - i
decreasing_by omega

/-- `calculateSpectralRolloff`: frequency below which the cumulative
spectrum first reaches 85% of its total. -/
noncomputable def calculateSpectralRolloff
    (spectrum : List ℝ) (sampleRate : ℝ) : ℝ :=
  let totalEnergy := spectrum.foldl (fun s v => s + v) 0
  rolloffLoop spectrum (sampleRate / 2) (0.85 * totalEnergy) 0 0

/-- `getBandEnergy`: the band edges in Hz are mapped to bin indices with
`lowBin = floor (lowFreq / nyquist * size)` and
`highBin = ceil (highFreq / nyquist * size)`, clamped to `[0, size]`; an
empty range scores `0`, otherwise the squared bins are accumulated over
`[startBin, endBin)` and `sqrt (energy / (endBin - startBin + 1))` is
returned.  (The source signature also receives `windowSize` but never
reads it.) -/
noncomputable def getBandEnergy
    (spectrum : List ℝ) (lowFreq highFreq sampleRate : ℝ) : ℝ :=
  let spectrumSize := spectrum.length
  let nyquist := sampleRate / 2
  let lowBin := ⌊lowFreq / nyquist * (spectrumSize : ℝ)⌋
  let highBin := ⌈highFreq / nyquist * (spectrumSize : ℝ)⌉
  let startBin := max 0 lowBin
  let endBin := min highBin (spectrumSize : ℤ)
  if endBin ≤ startBin then 0
  else
    let energy := (List.range' startBin.toNat (endBin - startBin).toNat).foldl
        (fun acc i => acc + spectrum.getD i 0 * spectrum.getD i 0) 0
    Real.sqrt (energy / ((endBin : ℝ) - (startBin : ℝ) + 1))

/-- The windowing loop of `extractFeatures`:
`for (i = 0; i < samples.length - windowSize; i += hopSize)` with
`windowSize = 512` and `hopSize = 2048`, threading the previous window
spectrum for the flux feature.  Note the loop guard is strict: an
iteration runs only while strictly more than 512 samples remain. -/
noncomputable def extractLoop (samples : List ℝ) (sampleRate : ℝ)
    (prevSpectrum : Option (List ℝ)) (i : ℕ) : List Features :=
  if h : i + 512 < samples.length then
    let window := applyHannWindow ((samples.drop i).take 512)
    let spectrum := simpleFFT window
    let features : Features :=
      { energy := calculateEnergy window
        zcr := calculateZeroCrossingRate window
        spectralCentroid := calculateSpectralCentroid spectrum sampleRate
        spectralFlux :=
          match prevSpectrum with
          | some prev => calculateSpectralFluxBetween spectrum prev
          | none => 0
        spectralRolloff := calculateSpectralRolloff spectrum sampleRate
        subBass := getBandEnergy spectrum 20 60 sampleRate
        bass := getBandEnergy spectrum 60 250 sampleRate
        lowMid := getBandEnergy spectrum 250 500 sampleRate
        mid := getBandEnergy spectrum 500 2000 sampleRate
        highMid := getBandEnergy spectrum 2000 4000 sampleRate
        presence := getBandEnergy spectrum 4000 6000 sampleRate
        brilliance := getBandEnergy spectrum 6000 20000 sampleRate }
    features :: extractLoop samples sampleRate (some spectrum) (i + 2048)
  else []
termination_by samples.length - i
decreasing_by omega

/-- `extractFeatures` (the `BuildFingerprint` operation): run the
windowing loop from sample 0 with no previous spectrum.  The sample
buffer is the first channel of the decoded audio. -/
noncomputable def extractFeatures
    (samples : List ℝ) (sampleRate : ℝ) : Fingerprint :=
  extractLoop samples sampleRate none 0

/-- A stored library entry: identifier, owning user, fingerprint. -/
structure LibraryEntry where
  audioId : String
  userId : String
  fingerprint : Fingerprint

/-- One element of the diagnostic score list built during matching. -/
structure ScoreEntry where
  audioId : String
  score : ℝ
  userId : String

/-- The result of `matchAudio`: the source returns
`{match, confidence, allScores}`; the `match` field is named `matchId`
here because `match` is reserved in Lean. -/
structure MatchResult where
  matchId : Option String
  confidence : ℝ
  allScores : List ScoreEntry

/-- The source guard `userId && storedData.userId !== userId` skips an
entry only when the filter is present AND truthy (a non-empty string)
AND the owner differs. -/
def skipEntry (userFilter : Option String) (ownerId : String) : Bool :=
  match userFilter with
  | none => false
  | some u => if u = "" then false else decide (ownerId ≠ u)

/-- One iteration of the `matchAudio` database loop, acting on the state
`(bestMatch, bestScore, allScores)`: skipped entries leave the state
unchanged; otherwise the entry is scored, appended to the score list
(with falsy stored owner replaced by "unknown"), and the best
match/score is updated on a strict improvement. -/
noncomputable def matchStep (query : Fingerprint) (userFilter : Option String)
    (st : Option String × ℝ × List ScoreEntry) (e : LibraryEntry) :
    Option String × ℝ × List ScoreEntry :=
  if skipEntry userFilter e.userId then st
  else
    let score := compareFingerprints query e.fingerprint
    let scores := st.2.2 ++
      [⟨e.audioId, score, if e.userId = "" then "unknown" else e.userId⟩]
    if st.2.1 < score then (some e.audioId, score, scores)
    else (st.1, st.2.1, scores)

/-- `matchAudio` (the `Match` operation), starting from the query
fingerprint: fold the database loop from `bestMatch = null`,
`bestScore = 0`, and return the best identifier only when
`bestScore >= threshold`.  (The source sorts `allScores` descending for
its debug log just before returning; the list is modelled here in
accumulation order, which agrees with the source list elementwise as a
set.) -/
noncomputable def matchAudio (query : Fingerprint)
    (database : List LibraryEntry) (threshold : ℝ)
    (userFilter : Option String) : MatchResult :=
  let st := database.foldl (matchStep query userFilter) (none, 0, [])
  if threshold ≤ st.2.1 then ⟨st.1, st.2.1, st.2.2⟩
  else ⟨none, st.2.1, st.2.2⟩

/-- The claimed offset set: zero together with the offsets from
`-maxOffset` to `+maxOffset` in steps of 5 windows (the arithmetic
progression starting at `-maxOffset`), zero listed once. -/
def claimOffsets (m : ℕ) : Finset ℤ :=
  insert 0 ((Finset.Icc (-(m : ℤ)) m).filter fun o =>
    o ≠ 0 ∧ (o + m) % 5 = 0)

/-- Modelled from the spec: the band-energy computation as §4.2 words it,
with BOTH band edges mapped to bins by `bin = round ((freq/nyquist)·numBins)`
(the source instead uses `floor` for the low edge and `ceil` for the high
edge); clamping, summation and divisor as in the source. -/
noncomputable def getBandEnergySpecRound
    (spectrum : List ℝ) (lowFreq highFreq sampleRate : ℝ) : ℝ :=
  let spectrumSize := spectrum.length
  let nyquist := sampleRate / 2
  let lowBin := round (lowFreq / nyquist * (spectrumSize : ℝ))
  let highBin := round (highFreq / nyquist * (spectrumSize : ℝ))
  let startBin := max 0 lowBin
  let endBin := min highBin (spectrumSize : ℤ)
  if endBin ≤ startBin then 0
  else
    let energy := (List.range' startBin.toNat (endBin - startBin).toNat).foldl
        (fun acc i => acc + spectrum.getD i 0 * spectrum.getD i 0) 0
    Real.sqrt (energy / ((endBin : ℝ) - (startBin : ℝ) + 1))

/-- A feature frame whose `energy` is 1 and whose other features are 0;
used as a concrete fingerprint frame distinguishable from the zero frame. -/
def oneFeat : Features := { zeroFeatures with energy := 1 }

/-- A 20-frame all-zero fingerprint (20 frames so that the comparison
loop computes `maxOffset = 1`, an offset grid asymmetric around 0). -/
def fpA : Fingerprint := List.replicate 20 zeroFeatures

/-- A 20-frame fingerprint differing from `fpA` only in frame 0. -/
def fpB : Fingerprint := oneFeat :: List.replicate 19 zeroFeatures

/-- A one-entry library whose entry has an empty fingerprint, so that it
scores 0 against every query. -/
def dbEmptyFp : List LibraryEntry := [⟨"songA", "alice", []⟩]

/-- A one-entry library owned by "alice" whose fingerprint matches the
one-frame zero query exactly. -/
def dbAlice : List LibraryEntry := [⟨"songA", "alice", [zeroFeatures]⟩]

/-- A two-owner library used to exercise the owner filter. -/
def dbTwoOwners : List LibraryEntry :=
  [⟨"songA", "alice", [zeroFeatures]⟩, ⟨"songB", "bob", [zeroFeatures]⟩]

/-! ## Bounds on the similarity primitives -/

lemma maxVal_pos (v1 v2 : ℝ) : (0 : ℝ) < max (max |v1| |v2|) 0.001 :=
  lt_max_of_lt_right (by norm_num)

lemma featSim_pos (v1 v2 : ℝ) : 0 < featSim v1 v2 := Real.exp_pos _

lemma featSim_le_one (v1 v2 : ℝ) : featSim v1 v2 ≤ 1 := by
  have hd : 0 ≤ |v1 - v2| / max (max |v1| |v2|) 0.001 :=
    div_nonneg (abs_nonneg _) (maxVal_pos v1 v2).le
  exact Real.exp_le_one_iff.mpr
    (mul_nonpos_of_nonpos_of_nonneg (neg_nonpos.mpr hd) (by norm_num))

lemma featSim_self (v : ℝ) : featSim v v = 1 := by
  simp [featSim]

lemma featSim_comm (v1 v2 : ℝ) : featSim v1 v2 = featSim v2 v1 := by
  unfold featSim
  rw [abs_sub_comm v1 v2, max_comm |v1| |v2|]

lemma featSim_mul_nonneg (a b w : ℝ) (hw : 0 ≤ w) : 0 ≤ featSim a b * w :=
  mul_nonneg (featSim_pos a b).le hw

lemma featSim_mul_le (a b w : ℝ) (hw : 0 ≤ w) : featSim a b * w ≤ w :=
  mul_le_of_le_one_left hw (featSim_le_one a b)

lemma frameSim_nonneg (f1 f2 : Features) : 0 ≤ frameSim f1 f2 := by
  unfold frameSim
  have h := featSim_mul_nonneg
  have h1 := h f1.energy f2.energy wEnergy (by norm_num [wEnergy])
  have h2 := h f1.zcr f2.zcr wZcr (by norm_num [wZcr])
  have h3 := h f1.spectralCentroid f2.spectralCentroid wSpectralCentroid
    (by norm_num [wSpectralCentroid])
  have h4 := h f1.spectralFlux f2.spectralFlux wSpectralFlux
    (by norm_num [wSpectralFlux])
  have h5 := h f1.spectralRolloff f2.spectralRolloff wSpectralRolloff
    (by norm_num [wSpectralRolloff])
  have h6 := h f1.subBass f2.subBass wSubBass (by norm_num [wSubBass])
  have h7 := h f1.bass f2.bass wBass (by norm_num [wBass])
  have h8 := h f1.lowMid f2.lowMid wLowMid (by norm_num [wLowMid])
  have h9 := h f1.mid f2.mid wMid (by norm_num [wMid])
  have h10 := h f1.highMid f2.highMid wHighMid (by norm_num [wHighMid])
  have h11 := h f1.presence f2.presence wPresence (by norm_num [wPresence])
  have h12 := h f1.brilliance f2.brilliance wBrilliance
    (by norm_num [wBrilliance])
  linarith

lemma frameSim_le_one (f1 f2 : Features) : frameSim f1 f2 ≤ 1 := by
  unfold frameSim
  have h := featSim_mul_le
  have h1 := h f1.energy f2.energy wEnergy (by norm_num [wEnergy])
  have h2 := h f1.zcr f2.zcr wZcr (by norm_num [wZcr])
  have h3 := h f1.spectralCentroid f2.spectralCentroid wSpectralCentroid
    (by norm_num [wSpectralCentroid])
  have h4 := h f1.spectralFlux f2.spectralFlux wSpectralFlux
    (by norm_num [wSpectralFlux])
  have h5 := h f1.spectralRolloff f2.spectralRolloff wSpectralRolloff
    (by norm_num [wSpectralRolloff])
  have h6 := h f1.subBass f2.subBass wSubBass (by norm_num [wSubBass])
  have h7 := h f1.bass f2.bass wBass (by norm_num [wBass])
  have h8 := h f1.lowMid f2.lowMid wLowMid (by norm_num [wLowMid])
  have h9 := h f1.mid f2.mid wMid (by norm_num [wMid])
  have h10 := h f1.highMid f2.highMid wHighMid (by norm_num [wHighMid])
  have h11 := h f1.presence f2.presence wPresence (by norm_num [wPresence])
  have h12 := h f1.brilliance f2.brilliance wBrilliance
    (by norm_num [wBrilliance])
  have hsum : wEnergy + wZcr + wSpectralCentroid + wSpectralFlux +
      wSpectralRolloff + wSubBass + wBass + wLowMid + wMid + wHighMid +
      wPresence + wBrilliance = 1 := by
    norm_num [wEnergy, wZcr, wSpectralCentroid, wSpectralFlux,
      wSpectralRolloff, wSubBass, wBass, wLowMid, wMid, wHighMid,
      wPresence, wBrilliance]
  linarith

lemma frameSim_self (f : Features) : frameSim f f = 1 := by
  norm_num [frameSim, featSim_self, wEnergy, wZcr, wSpectralCentroid,
    wSpectralFlux, wSpectralRolloff, wSubBass, wBass, wLowMid, wMid,
    wHighMid, wPresence, wBrilliance]

lemma frameSim_comm (f1 f2 : Features) : frameSim f1 f2 = frameSim f2 f1 := by
  unfold frameSim
  rw [featSim_comm f1.energy, featSim_comm f1.zcr,
    featSim_comm f1.spectralCentroid, featSim_comm f1.spectralFlux,
    featSim_comm f1.spectralRolloff, featSim_comm f1.subBass,
    featSim_comm f1.bass, featSim_comm f1.lowMid, featSim_comm f1.mid,
    featSim_comm f1.highMid, featSim_comm f1.presence,
    featSim_comm f1.brilliance]

/-! ## Bounds on the per-offset and overall scores -/

lemma withOffset_nonneg (fp1 fp2 : Fingerprint) (o : ℤ) :
    0 ≤ compareFingerprintsWithOffset fp1 fp2 o := by
  simp only [compareFingerprintsWithOffset]
  split_ifs with h
  · exact le_refl 0
  · push_neg at h
    apply div_nonneg
    · exact Finset.sum_nonneg fun i _ => frameSim_nonneg _ _
    · exact_mod_cast h.le

lemma withOffset_le_one (fp1 fp2 : Fingerprint) (o : ℤ) :
    compareFingerprintsWithOffset fp1 fp2 o ≤ 1 := by
  simp only [compareFingerprintsWithOffset]
  split_ifs with h
  · exact zero_le_one
  · push_neg at h
    rw [div_le_one (by exact_mod_cast h)]
    have hs := Finset.sum_le_sum
      (fun i (_ : i ∈ Finset.range
          ((min fp1.length fp2.length : ℤ) - |o|).toNat) =>
        frameSim_le_one (getF fp1 ((max 0 o).toNat + i))
          (getF fp2 ((max 0 (-o)).toNat + i)))
    rw [Finset.sum_const, nsmul_eq_mul, mul_one, Finset.card_range] at hs
    have hc : ((((min fp1.length fp2.length : ℤ) - |o|).toNat : ℕ) : ℝ)
        = (((min fp1.length fp2.length : ℤ) - |o| : ℤ) : ℝ) := by
      exact_mod_cast Int.toNat_of_nonneg h.le
    rw [hc] at hs
    exact hs

lemma withOffset_zero_self (fp : Fingerprint) (h : fp ≠ []) :
    compareFingerprintsWithOffset fp fp 0 = 1 := by
  have hl : 0 < fp.length := List.length_pos.mpr h
  simp only [compareFingerprintsWithOffset, abs_zero, sub_zero, min_self,
    neg_zero, max_self, Int.toNat_zero, Int.toNat_natCast, zero_add]
  rw [if_neg (by exact_mod_cast hl.not_le)]
  rw [Finset.sum_congr rfl fun i _ => frameSim_self (getF fp i)]
  rw [Finset.sum_const, nsmul_eq_mul, mul_one, Finset.card_range]
  exact div_self (by exact_mod_cast hl.ne')

/-! ## Folding the offset loop with `max` -/

lemma le_foldl_max (f : ℤ → ℝ) :
    ∀ (l : List ℤ) (b : ℝ), b ≤ l.foldl (fun best o => max best (f o)) b := by
  intro l
  induction l with
  | nil => intro b; exact le_refl b
  | cons o t ih =>
      intro b
      exact le_trans (le_max_left b (f o)) (ih (max b (f o)))

lemma foldl_max_le (f : ℤ → ℝ) (c : ℝ) :
    ∀ (l : List ℤ) (b : ℝ), b ≤ c → (∀ o ∈ l, f o ≤ c) →
      l.foldl (fun best o => max best (f o)) b ≤ c := by
  intro l
  induction l with
  | nil => intro b hb _; exact hb
  | cons o t ih =>
      intro b hb hf
      exact ih (max b (f o)) (max_le hb (hf o (List.mem_cons_self o t)))
        fun o2 ho2 => hf o2 (List.mem_cons_of_mem o ho2)

lemma foldl_max_of_mem (f : ℤ → ℝ) :
    ∀ (l : List ℤ) (b : ℝ) (o : ℤ), o ∈ l →
      f o ≤ l.foldl (fun best o => max best (f o)) b := by
  intro l
  induction l with
  | nil => intro b o ho; exact absurd ho (List.not_mem_nil o)
  | cons o2 t ih =>
      intro b o ho
      rcases List.mem_cons.mp ho with he | ht
      · subst he
        exact le_trans (le_max_right b (f o)) (le_foldl_max f t (max b (f o)))
      · exact ih (max b (f o2)) o ht

lemma compareFingerprints_nonneg (fp1 fp2 : Fingerprint) :
    0 ≤ compareFingerprints fp1 fp2 := by
  simp only [compareFingerprints]
  exact le_trans (withOffset_nonneg fp1 fp2 0) (le_foldl_max _ _ _)

lemma compareFingerprints_le_one (fp1 fp2 : Fingerprint) :
    compareFingerprints fp1 fp2 ≤ 1 := by
  simp only [compareFingerprints]
  exact foldl_max_le _ 1 _ _ (withOffset_le_one fp1 fp2 0)
    fun o _ => withOffset_le_one fp1 fp2 o

lemma compareFingerprints_self (fp : Fingerprint) (h : fp ≠ []) :
    compareFingerprints fp fp = 1 := by
  refine le_antisymm (compareFingerprints_le_one fp fp) ?_
  simp only [compareFingerprints]
  rw [← withOffset_zero_self fp h]
  exact le_foldl_max _ _ _

/-! ## The set of offsets the scorer evaluates -/

lemma mem_offsetCandidates (m : ℕ) (o : ℤ) :
    o ∈ offsetCandidates m ↔
      o ≠ 0 ∧ -(m : ℤ) ≤ o ∧ o ≤ m ∧ (o + m) % 5 = 0 := by
  unfold offsetCandidates
  constructor
  · intro ho
    obtain ⟨hmap, hne⟩ := List.mem_filter.mp ho
    obtain ⟨k, hk, heq⟩ := List.mem_map.mp hmap
    have hkr := List.mem_range.mp hk
    subst heq
    exact ⟨bne_iff_ne.mp hne, by omega, by omega, by omega⟩
  · rintro ⟨hne, hlb, hub, hmod⟩
    exact List.mem_filter.mpr ⟨List.mem_map.mpr
      ⟨((o + m) / 5).toNat, List.mem_range.mpr (by omega), by omega⟩,
      bne_iff_ne.mpr hne⟩

lemma claimOffsets_nonempty (m : ℕ) : (claimOffsets m).Nonempty :=
  ⟨0, Finset.mem_insert_self 0 _⟩

lemma mem_claimOffsets (m : ℕ) (o : ℤ) :
    o ∈ claimOffsets m ↔
      o = 0 ∨ (-(m : ℤ) ≤ o ∧ o ≤ m ∧ o ≠ 0 ∧ (o + m) % 5 = 0) := by
  simp only [claimOffsets, Finset.mem_insert, Finset.mem_filter,
    Finset.mem_Icc, ne_eq]
  tauto

/-- The overall score equals the maximum of the per-offset scores over
the claimed offset set. -/
lemma compare_eq_sup (fp1 fp2 : Fingerprint) :
    compareFingerprints fp1 fp2 =
      (claimOffsets (fpMaxOffset fp1 fp2)).sup'
        (claimOffsets_nonempty _) (compareFingerprintsWithOffset fp1 fp2) := by
  apply le_antisymm
  · simp only [compareFingerprints]
    apply foldl_max_le
    · exact Finset.le_sup' (compareFingerprintsWithOffset fp1 fp2)
        (Finset.mem_insert_self 0 _)
    · intro o ho
      have hmem := (mem_offsetCandidates _ o).mp ho
      exact Finset.le_sup' (compareFingerprintsWithOffset fp1 fp2)
        ((mem_claimOffsets _ o).mpr (Or.inr ⟨hmem.2.1, hmem.2.2.1,
          hmem.1, hmem.2.2.2⟩))
  · apply Finset.sup'_le
    intro o ho
    simp only [compareFingerprints]
    rcases (mem_claimOffsets _ o).mp ho with rfl | ⟨hlb, hub, hne, hmod⟩
    · exact le_foldl_max _ _ _
    · exact foldl_max_of_mem _ _ _ o
        ((mem_offsetCandidates _ o).mpr ⟨hne, hlb, hub, hmod⟩)

/-! ## Symmetry of the per-offset score -/

lemma withOffset_comm (fp1 fp2 : Fingerprint) (o : ℤ) :
    compareFingerprintsWithOffset fp1 fp2 o =
      compareFingerprintsWithOffset fp2 fp1 (-o) := by
  simp only [compareFingerprintsWithOffset, abs_neg, neg_neg]
  rw [min_comm ((fp2.length : ℤ)) ((fp1.length : ℤ))]
  split_ifs with h
  · rfl
  · congr 1
    exact Finset.sum_congr rfl fun i _ => frameSim_comm _ _

/-! ## Number of windows produced by the extraction loop -/

lemma extractLoop_length (samples : List ℝ) (r : ℝ) :
    ∀ (fuel i : ℕ) (p : Option (List ℝ)), samples.length - i ≤ fuel →
      (extractLoop samples r p i).length =
        if i + 512 < samples.length
        then (samples.length - 513 - i) / 2048 + 1 else 0 := by
  intro fuel
  induction fuel with
  | zero =>
      intro i p hle
      rw [extractLoop, dif_neg (by omega), if_neg (by omega)]
      rfl
  | succ n ih =>
      intro i p hle
      rw [extractLoop]
      by_cases h : i + 512 < samples.length
      · rw [dif_pos h, if_pos h]
        simp only [List.length_cons]
        rw [ih (i + 2048) _ (by omega)]
        split_ifs with h2
        · omega
        · omega
      · rw [dif_neg h, if_neg h]
        rfl

/-- Closed form for the fingerprint length: the loop guard
`i < samples.length - 512` is strict, so the window count is
`ceil ((numSamples - 512) / 2048)`, i.e. `(numSamples - 513) / 2048 + 1`
when `numSamples > 512` and `0` otherwise (in particular `0` when
`numSamples = 512` exactly). -/
lemma extractFeatures_length (samples : List ℝ) (r : ℝ) :
    (extractFeatures samples r).length =
      if 512 < samples.length
      then (samples.length - 513) / 2048 + 1 else 0 := by
  rw [extractFeatures,
    extractLoop_length samples r samples.length 0 none (by omega)]
  norm_num

lemma extractFeatures_nil (r : ℝ) : extractFeatures [] r = [] := by
  rw [extractFeatures, extractLoop, dif_neg (by simp)]

/-! ## Scores involving an empty fingerprint -/

lemma offsetCandidates_zero : offsetCandidates 0 = [] := by decide

lemma withOffset_nil_left (fp : Fingerprint) (o : ℤ) :
    compareFingerprintsWithOffset [] fp o = 0 := by
  simp only [compareFingerprintsWithOffset]
  rw [if_pos]
  simp only [List.length_nil, Nat.cast_zero]
  have : (0 : ℤ) ⊓ (fp.length : ℤ) = 0 :=
    min_eq_left (by exact_mod_cast Nat.zero_le _)
  rw [this]
  have := abs_nonneg o
  omega

lemma withOffset_nil_right (fp : Fingerprint) (o : ℤ) :
    compareFingerprintsWithOffset fp [] o = 0 := by
  rw [withOffset_comm]
  exact withOffset_nil_left fp (-o)

lemma compareFingerprints_nil_left (fp : Fingerprint) :
    compareFingerprints [] fp = 0 := by
  have hm : fpMaxOffset [] fp = 0 := by
    simp [fpMaxOffset]
  simp only [compareFingerprints, hm, offsetCandidates_zero, List.foldl_nil]
  exact withOffset_nil_left fp 0

lemma compareFingerprints_nil_right (fp : Fingerprint) :
    compareFingerprints fp [] = 0 := by
  have hm : fpMaxOffset fp [] = 0 := by
    simp [fpMaxOffset]
  simp only [compareFingerprints, hm, offsetCandidates_zero, List.foldl_nil]
  exact withOffset_nil_right fp 0

/-! ## Invariants of the matching loop -/

lemma matchFold_spec (query : Fingerprint) (uf : Option String) :
    ∀ (db : List LibraryEntry) (st : Option String × ℝ × List ScoreEntry),
      st.2.1 ≤ (db.foldl (matchStep query uf) st).2.1 ∧
      (∀ e ∈ db, skipEntry uf e.userId = false →
        compareFingerprints query e.fingerprint ≤
          (db.foldl (matchStep query uf) st).2.1) ∧
      (((db.foldl (matchStep query uf) st).1 = st.1 ∧
        (db.foldl (matchStep query uf) st).2.1 = st.2.1) ∨
       (∃ e ∈ db, skipEntry uf e.userId = false ∧
         (db.foldl (matchStep query uf) st).1 = some e.audioId ∧
         (db.foldl (matchStep query uf) st).2.1 =
           compareFingerprints query e.fingerprint ∧
         st.2.1 < compareFingerprints query e.fingerprint)) := by
  intro db
  induction db with
  | nil =>
      intro st
      exact ⟨le_refl _, by simp, Or.inl ⟨rfl, rfl⟩⟩
  | cons e t ih =>
      intro st
      simp only [List.foldl_cons]
      obtain ⟨ih1, ih2, ih3⟩ := ih (matchStep query uf st e)
      by_cases hskip : skipEntry uf e.userId
      · have he1 : (matchStep query uf st e).1 = st.1 := by
          simp [matchStep, hskip]
        have he2 : (matchStep query uf st e).2.1 = st.2.1 := by
          simp [matchStep, hskip]
        refine ⟨?_, ?_, ?_⟩
        · rw [← he2]; exact ih1
        · intro e0 he0 hsk0
          rcases List.mem_cons.mp he0 with rfl | hmem
          · rw [hskip] at hsk0; cases hsk0
          · exact ih2 e0 hmem hsk0
        · rcases ih3 with ⟨ha, hb⟩ | ⟨e2, hmem, hsk2, ha, hb, hc⟩
          · exact Or.inl ⟨by rw [ha, he1], by rw [hb, he2]⟩
          · exact Or.inr ⟨e2, List.mem_cons_of_mem e hmem, hsk2, ha, hb,
              by rw [← he2]; exact hc⟩
      · rw [Bool.not_eq_true] at hskip
        by_cases hup : st.2.1 < compareFingerprints query e.fingerprint
        · have he1 : (matchStep query uf st e).1 = some e.audioId := by
            simp [matchStep, hskip, hup]
          have he2 : (matchStep query uf st e).2.1 =
              compareFingerprints query e.fingerprint := by
            simp [matchStep, hskip, hup]
          refine ⟨?_, ?_, ?_⟩
          · exact le_trans hup.le (by rw [← he2]; exact ih1)
          · intro e0 he0 hsk0
            rcases List.mem_cons.mp he0 with rfl | hmem
            · rw [← he2]; exact ih1
            · exact ih2 e0 hmem hsk0
          · rcases ih3 with ⟨ha, hb⟩ | ⟨e2, hmem, hsk2, ha, hb, hc⟩
            · exact Or.inr ⟨e, List.mem_cons_self e t, hskip,
                by rw [ha, he1], by rw [hb, he2], hup⟩
            · exact Or.inr ⟨e2, List.mem_cons_of_mem e hmem, hsk2, ha, hb,
                lt_trans hup (by rw [← he2]; exact hc)⟩
        · have he1 : (matchStep query uf st e).1 = st.1 := by
            simp [matchStep, hskip, if_neg hup]
          have he2 : (matchStep query uf st e).2.1 = st.2.1 := by
            simp [matchStep, hskip, if_neg hup]
          refine ⟨?_, ?_, ?_⟩
          · rw [← he2]; exact ih1
          · intro e0 he0 hsk0
            rcases List.mem_cons.mp he0 with rfl | hmem
            · exact le_trans (not_lt.mp hup) (by rw [← he2]; exact ih1)
            · exact ih2 e0 hmem hsk0
          · rcases ih3 with ⟨ha, hb⟩ | ⟨e2, hmem, hsk2, ha, hb, hc⟩
            · exact Or.inl ⟨by rw [ha, he1], by rw [hb, he2]⟩
            · exact Or.inr ⟨e2, List.mem_cons_of_mem e hmem, hsk2, ha, hb,
                by rw [← he2]; exact hc⟩

lemma matchFold_scores (query : Fingerprint) (uf : Option String) :
    ∀ (db : List LibraryEntry) (st : Option String × ℝ × List ScoreEntry),
      ∀ s ∈ (db.foldl (matchStep query uf) st).2.2,
        s ∈ st.2.2 ∨ ∃ e ∈ db, skipEntry uf e.userId = false ∧
          s.audioId = e.audioId ∧
          s.score = compareFingerprints query e.fingerprint ∧
          s.userId = (if e.userId = "" then "unknown" else e.userId) := by
  intro db
  induction db with
  | nil =>
      intro st s hs
      exact Or.inl hs
  | cons e t ih =>
      intro st s hs
      simp only [List.foldl_cons] at hs
      rcases ih (matchStep query uf st e) s hs with hin | ⟨e2, hmem, h⟩
      · by_cases hskip : skipEntry uf e.userId
        · left
          have : (matchStep query uf st e).2.2 = st.2.2 := by
            simp [matchStep, hskip]
          rwa [this] at hin
        · rw [Bool.not_eq_true] at hskip
          have hsc : (matchStep query uf st e).2.2 = st.2.2 ++
              [⟨e.audioId, compareFingerprints query e.fingerprint,
                if e.userId = "" then "unknown" else e.userId⟩] := by
            simp only [matchStep, hskip, Bool.false_eq_true, if_false]
            split_ifs <;> rfl
          rw [hsc] at hin
          rcases List.mem_append.mp hin with h1 | h2
          · exact Or.inl h1
          · have hrec := List.mem_singleton.mp h2
            exact Or.inr ⟨e, List.mem_cons_self e t, hskip,
              by rw [hrec], by rw [hrec], by rw [hrec]⟩
      · exact Or.inr ⟨e2, List.mem_cons_of_mem e hmem, h⟩

/-! ## Band energy: loop-to-sum conversion, and the round-based variant
the spec describes -/

lemma foldl_add_range' (g : ℕ → ℝ) :
    ∀ (n a : ℕ) (init : ℝ),
      (List.range' a n).foldl (fun acc i => acc + g i) init =
        init + ∑ i in Finset.Ico a (a + n), g i := by
  intro n
  induction n with
  | zero => intro a init; simp
  | succ k ih =>
      intro a init
      rw [List.range'_succ, List.foldl_cons, ih (a + 1) (init + g a),
        Finset.sum_eq_sum_Ico_succ_bot (show a < a + (k + 1) by omega) g]
      have h2 : a + (k + 1) = a + 1 + k := by omega
      rw [h2]
      ring

/-- The closed form of `getBandEnergy`: the accumulation loop summed over
`[startBin, endBin)` with `lowBin` mapped by `floor` and `highBin` by
`ceil`, edges clamped to `[0, numBins]`, divisor `endBin - startBin + 1`
(one more than the number of bins summed), and `0` on an empty range. -/
lemma getBandEnergy_eq (spectrum : List ℝ) (lowFreq highFreq sampleRate : ℝ) :
    getBandEnergy spectrum lowFreq highFreq sampleRate =
      (if min ⌈highFreq / (sampleRate / 2) * (spectrum.length : ℝ)⌉
            (spectrum.length : ℤ) ≤
          max 0 ⌊lowFreq / (sampleRate / 2) * (spectrum.length : ℝ)⌋ then 0
       else
         Real.sqrt
           ((∑ i in Finset.Ico
               (max 0 ⌊lowFreq / (sampleRate / 2) * (spectrum.length : ℝ)⌋).toNat
               (min ⌈highFreq / (sampleRate / 2) * (spectrum.length : ℝ)⌉
                 (spectrum.length : ℤ)).toNat,
               spectrum.getD i 0 ^ 2) /
             (((min ⌈highFreq / (sampleRate / 2) * (spectrum.length : ℝ)⌉
                 (spectrum.length : ℤ) : ℤ) : ℝ) -
               ((max 0 ⌊lowFreq / (sampleRate / 2) * (spectrum.length : ℝ)⌋ : ℤ) : ℝ)
               + 1))) := by
  simp only [getBandEnergy]
  split_ifs with h
  · rfl
  · rw [foldl_add_range' (fun i => spectrum.getD i 0 * spectrum.getD i 0),
      zero_add]
    have hle : (0 : ℤ) ≤ max 0 ⌊lowFreq / (sampleRate / 2) * (spectrum.length : ℝ)⌋ :=
      le_max_left 0 _
    have harg :
        (max 0 ⌊lowFreq / (sampleRate / 2) * (spectrum.length : ℝ)⌋).toNat +
          (min ⌈highFreq / (sampleRate / 2) * (spectrum.length : ℝ)⌉
              (spectrum.length : ℤ) -
            max 0 ⌊lowFreq / (sampleRate / 2) * (spectrum.length : ℝ)⌋).toNat =
          (min ⌈highFreq / (sampleRate / 2) * (spectrum.length : ℝ)⌉
            (spectrum.length : ℤ)).toNat := by
      omega
    rw [harg]
    simp only [pow_two]

/-! ## Spectral rolloff on an all-zero spectrum -/

lemma foldl_add_zeros :
    ∀ (l : List ℝ), (∀ x ∈ l, x = 0) → ∀ init : ℝ,
      l.foldl (fun s v => s + v) init = init := by
  intro l
  induction l with
  | nil => intro _ init; rfl
  | cons a t ih =>
      intro hz init
      rw [List.foldl_cons, hz a (List.mem_cons_self a t), add_zero]
      exact ih (fun x hx => hz x (List.mem_cons_of_mem a hx)) init

lemma rolloff_zero_spectrum (spectrum : List ℝ) (sampleRate : ℝ)
    (hne : spectrum ≠ []) (hz : ∀ x ∈ spectrum, x = 0) :
    calculateSpectralRolloff spectrum sampleRate = 0 := by
  cases spectrum with
  | nil => exact absurd rfl hne
  | cons a t =>
      have ha : a = 0 := hz a (List.mem_cons_self a t)
      simp only [calculateSpectralRolloff]
      rw [foldl_add_zeros _ hz 0, mul_zero, rolloffLoop,
        dif_pos (by simp : 0 < (a :: t).length)]
      simp [ha]

/-! ## Concrete scores for the 20-frame fingerprints `fpA`, `fpB` -/

lemma getF_replicate_zero (n i : ℕ) :
    getF (List.replicate n zeroFeatures) i = zeroFeatures := by
  unfold getF
  induction n generalizing i with
  | zero => simp
  | succ k ih =>
      cases i with
      | zero => simp [List.replicate]
      | succ j =>
          simp only [List.replicate, List.getD_cons_succ]
          exact ih j

lemma getF_fpA (i : ℕ) : getF fpA i = zeroFeatures := getF_replicate_zero 20 i

lemma getF_fpB_zero : getF fpB 0 = oneFeat := rfl

lemma getF_fpB_succ (i : ℕ) : getF fpB (i + 1) = zeroFeatures :=
  getF_replicate_zero 19 i

lemma length_fpA : fpA.length = 20 := by simp [fpA]

lemma length_fpB : fpB.length = 20 := by simp [fpB]

lemma featSim_zero_one : featSim 0 1 = Real.exp (-1.5) := by
  unfold featSim
  norm_num

lemma frameSim_zero_one :
    frameSim zeroFeatures oneFeat = Real.exp (-1.5) * 0.03 + 0.97 := by
  unfold frameSim
  norm_num [zeroFeatures, oneFeat, featSim_self, featSim_zero_one, wEnergy,
    wZcr, wSpectralCentroid, wSpectralFlux, wSpectralRolloff, wSubBass,
    wBass, wLowMid, wMid, wHighMid, wPresence, wBrilliance]
  ring_nf

lemma frameSim_zero_one_lt_one : frameSim zeroFeatures oneFeat < 1 := by
  rw [frameSim_zero_one]
  have h := Real.exp_lt_one_iff.mpr (show (-1.5 : ℝ) < 0 by norm_num)
  nlinarith

lemma frameSim_zero_one_pos : 0 < frameSim zeroFeatures oneFeat := by
  rw [frameSim_zero_one]
  have h := Real.exp_pos (-1.5 : ℝ)
  nlinarith

lemma withOffset_AB_neg_one : compareFingerprintsWithOffset fpA fpB (-1) = 1 := by
  have hlen : ((fpA.length : ℤ) ⊓ (fpB.length : ℤ)) - |(-1 : ℤ)| = 19 := by
    rw [length_fpA, length_fpB]; decide
  have hs1 : ((0 : ℤ) ⊔ (-1)).toNat = 0 := by decide
  have hs2 : ((0 : ℤ) ⊔ (-(-1))).toNat = 1 := by decide
  simp only [compareFingerprintsWithOffset, hlen, hs1, hs2]
  rw [if_neg (by norm_num)]
  have hsummand : ∀ i ∈ Finset.range ((19 : ℤ)).toNat,
      frameSim (getF fpA (0 + i)) (getF fpB (1 + i)) = 1 := by
    intro i _
    rw [zero_add, getF_fpA, add_comm 1 i, getF_fpB_succ]
    exact frameSim_self zeroFeatures
  rw [Finset.sum_congr rfl hsummand, Finset.sum_const, nsmul_eq_mul,
    mul_one, Finset.card_range, show ((19 : ℤ)).toNat = 19 from rfl]
  norm_num

lemma withOffset_AB_zero :
    compareFingerprintsWithOffset fpA fpB 0 =
      (19 + frameSim zeroFeatures oneFeat) / 20 := by
  have hlen : ((fpA.length : ℤ) ⊓ (fpB.length : ℤ)) - |(0 : ℤ)| = 20 := by
    rw [length_fpA, length_fpB]; decide
  have hs1 : ((0 : ℤ) ⊔ (0 : ℤ)).toNat = 0 := by decide
  simp only [compareFingerprintsWithOffset, hlen, neg_zero, hs1]
  rw [if_neg (by norm_num)]
  have h20 : ((20 : ℤ)).toNat = 19 + 1 := rfl
  rw [h20, Finset.sum_range_succ']
  have hsummand : ∀ i ∈ Finset.range 19,
      frameSim (getF fpA (0 + (i + 1))) (getF fpB (0 + (i + 1))) = 1 := by
    intro i _
    rw [zero_add, getF_fpA, getF_fpB_succ]
    exact frameSim_self zeroFeatures
  rw [Finset.sum_congr rfl hsummand, Finset.sum_const, nsmul_eq_mul,
    mul_one, Finset.card_range, zero_add, getF_fpA, getF_fpB_zero]
  norm_num

lemma withOffset_AB_one :
    compareFingerprintsWithOffset fpA fpB 1 =
      (18 + frameSim zeroFeatures oneFeat) / 19 := by
  have hlen : ((fpA.length : ℤ) ⊓ (fpB.length : ℤ)) - |(1 : ℤ)| = 19 := by
    rw [length_fpA, length_fpB]; decide
  have hs1 : ((0 : ℤ) ⊔ (1 : ℤ)).toNat = 1 := by decide
  have hs2 : ((0 : ℤ) ⊔ (-(1 : ℤ))).toNat = 0 := by decide
  simp only [compareFingerprintsWithOffset, hlen, hs1, hs2]
  rw [if_neg (by norm_num)]
  have h19 : ((19 : ℤ)).toNat = 18 + 1 := rfl
  rw [h19, Finset.sum_range_succ']
  have hsummand : ∀ i ∈ Finset.range 18,
      frameSim (getF fpA (1 + (i + 1))) (getF fpB (0 + (i + 1))) = 1 := by
    intro i _
    rw [zero_add, getF_fpA, getF_fpB_succ]
    exact frameSim_self zeroFeatures
  rw [Finset.sum_congr rfl hsummand, Finset.sum_const, nsmul_eq_mul,
    mul_one, Finset.card_range, zero_add, getF_fpA, getF_fpB_zero]
  norm_num

lemma offsetCandidates_one : offsetCandidates 1 = [-1] := by decide

lemma fpMaxOffset_AB : fpMaxOffset fpA fpB = 1 := by
  simp [fpMaxOffset, length_fpA, length_fpB]

lemma fpMaxOffset_BA : fpMaxOffset fpB fpA = 1 := by
  simp [fpMaxOffset, length_fpA, length_fpB]

lemma compare_AB : compareFingerprints fpA fpB = 1 := by
  simp only [compareFingerprints, fpMaxOffset_AB, offsetCandidates_one,
    List.foldl_cons, List.foldl_nil, withOffset_AB_neg_one]
  exact max_eq_right (withOffset_le_one fpA fpB 0)

lemma compare_BA_lt : compareFingerprints fpB fpA < 1 := by
  simp only [compareFingerprints, fpMaxOffset_BA, offsetCandidates_one,
    List.foldl_cons, List.foldl_nil]
  have h0 : compareFingerprintsWithOffset fpB fpA 0 < 1 := by
    rw [withOffset_comm fpB fpA 0, neg_zero, withOffset_AB_zero]
    have := frameSim_zero_one_lt_one
    rw [div_lt_one (by norm_num)]
    linarith
  have h1 : compareFingerprintsWithOffset fpB fpA (-1) < 1 := by
    rw [withOffset_comm fpB fpA (-1), neg_neg, withOffset_AB_one]
    have := frameSim_zero_one_lt_one
    rw [div_lt_one (by norm_num)]
    linarith
  exact max_lt h0 h1

/-! ## Claim theorems -/

/-- C1: for every pair of fingerprints, the overall score of
`compareFingerprints` equals the maximum of the per-offset scores of
`compareFingerprintsWithOffset` over exactly the offset set {0} together
with the offsets from `-maxOffset` to `+maxOffset` in steps of 5
windows, where `maxOffset = min 10 (floor (0.05 * min len1 len2))`; the
zero offset is in the evaluated set even when `maxOffset = 0`. -/
theorem offset_grid_complete (fp1 fp2 : Fingerprint) :
    fpMaxOffset fp1 fp2 =
      min 10 ⌊(0.05 : ℝ) * ((min fp1.length fp2.length : ℕ) : ℝ)⌋₊ ∧
    (0 : ℤ) ∈ claimOffsets (fpMaxOffset fp1 fp2) ∧
    compareFingerprints fp1 fp2 =
      (claimOffsets (fpMaxOffset fp1 fp2)).sup' (claimOffsets_nonempty _)
        (compareFingerprintsWithOffset fp1 fp2) := by
  refine ⟨?_, Finset.mem_insert_self 0 _, compare_eq_sup fp1 fp2⟩
  have h1 : (0.05 : ℝ) * ((min fp1.length fp2.length : ℕ) : ℝ) =
      ((min fp1.length fp2.length : ℕ) : ℝ) / 20 := by ring
  rw [h1, Nat.floor_div_ofNat, Nat.floor_natCast]
  rfl

/-- C2 counterexample: on a buffer of exactly 512 samples (one full
window, zero leftover), the loop guard `i < numSamples - windowSize` is
already false at `i = 0`, so `extractFeatures` produces 0 windows while
the claimed formula `floor ((numSamples - windowSize) / hopSize) + 1`
gives 1. -/
theorem window_count_claim_false :
    (extractFeatures (List.replicate 512 (0 : ℝ)) 44100).length ≠
      (512 - 512) / 2048 + 1 := by
  rw [extractFeatures_length]
  simp only [List.length_replicate]
  norm_num

/-- C2 amended: with `windowSize = 512` and `hopSize = 2048`, the
fingerprint has `ceil ((numSamples - 512) / 2048)` feature vectors, i.e.
`(numSamples - 513) / 2048 + 1` when `numSamples > 512` and `0`
otherwise: the loop runs only while STRICTLY more than 512 samples
remain, so a tail of exactly 512 samples is also dropped. -/
theorem window_count_strict (samples : List ℝ) (sampleRate : ℝ) :
    (extractFeatures samples sampleRate).length =
      if 512 < samples.length
      then (samples.length - 513) / 2048 + 1 else 0 :=
  extractFeatures_length samples sampleRate

/-- C4: the twelve weights sum to exactly 1, every per-feature
similarity `exp (-1.5 * normalizedDiff)` lies in (0, 1], and the overall
score of `compareFingerprints` lies in [0, 1]. -/
theorem score_in_unit_interval :
    weightTable.sum = 1 ∧
    (∀ v1 v2 : ℝ, 0 < featSim v1 v2 ∧ featSim v1 v2 ≤ 1) ∧
    ∀ fp1 fp2 : Fingerprint,
      0 ≤ compareFingerprints fp1 fp2 ∧ compareFingerprints fp1 fp2 ≤ 1 := by
  refine ⟨?_, fun v1 v2 => ⟨featSim_pos v1 v2, featSim_le_one v1 v2⟩,
    fun fp1 fp2 => ⟨compareFingerprints_nonneg fp1 fp2,
      compareFingerprints_le_one fp1 fp2⟩⟩
  norm_num [weightTable, wEnergy, wZcr, wSpectralCentroid, wSpectralFlux,
    wSpectralRolloff, wSubBass, wBass, wLowMid, wMid, wHighMid, wPresence,
    wBrilliance]

/-- C6: every non-empty fingerprint scores exactly 1 against itself,
attained already at zero offset. -/
theorem self_similarity (fp : Fingerprint) (h : fp ≠ []) :
    compareFingerprintsWithOffset fp fp 0 = 1 ∧
    compareFingerprints fp fp = 1 :=
  ⟨withOffset_zero_self fp h, compareFingerprints_self fp h⟩

/-- Witness for C6 at the one-frame zero fingerprint. -/
theorem self_similarity_witness :
    [zeroFeatures] ≠ ([] : Fingerprint) ∧
    compareFingerprintsWithOffset [zeroFeatures] [zeroFeatures] 0 = 1 ∧
    compareFingerprints [zeroFeatures] [zeroFeatures] = 1 :=
  ⟨by simp, (self_similarity [zeroFeatures] (by simp)).1,
    (self_similarity [zeroFeatures] (by simp)).2⟩

/-- C7: `extractFeatures` on the empty buffer is total and returns the
empty fingerprint, and an empty fingerprint scores 0 under
`compareFingerprints` against every fingerprint on either side
(including itself, taking `fp = []`). -/
theorem empty_input_fail_safe (sampleRate : ℝ) :
    extractFeatures [] sampleRate = [] ∧
    ∀ fp : Fingerprint,
      compareFingerprints [] fp = 0 ∧ compareFingerprints fp [] = 0 :=
  ⟨extractFeatures_nil sampleRate, fun fp =>
    ⟨compareFingerprints_nil_left fp, compareFingerprints_nil_right fp⟩⟩

/-- C9 counterexample: with the 20-frame fingerprints `fpA`, `fpB`
(`maxOffset = 1`, loop offsets `{-1}` only), the score of `(fpA, fpB)`
is 1 (attained at offset -1) while the score of `(fpB, fpA)` is strictly
below 1, because the grid never evaluates the mirrored offset `+1`. -/
theorem compare_symm_claim_false :
    compareFingerprints fpA fpB ≠ compareFingerprints fpB fpA := by
  intro h
  rw [compare_AB] at h
  have hlt := compare_BA_lt
  rw [← h] at hlt
  exact lt_irrefl 1 hlt

/-- C9 amended: the per-offset score is symmetric under swapping the
fingerprints and negating the offset, and the overall score is symmetric
whenever the computed `maxOffset` is divisible by 5 (then the evaluated
offset grid is closed under negation); the claim fails for other
`maxOffset` values, as the counterexample shows. -/
theorem compare_symm_amended :
    (∀ (fp1 fp2 : Fingerprint) (o : ℤ),
      compareFingerprintsWithOffset fp1 fp2 o =
        compareFingerprintsWithOffset fp2 fp1 (-o)) ∧
    ∀ fp1 fp2 : Fingerprint, 5 ∣ fpMaxOffset fp1 fp2 →
      compareFingerprints fp1 fp2 = compareFingerprints fp2 fp1 := by
  refine ⟨withOffset_comm, fun fp1 fp2 hdvd => ?_⟩
  have hm : fpMaxOffset fp2 fp1 = fpMaxOffset fp1 fp2 := by
    unfold fpMaxOffset
    rw [min_comm fp2.length fp1.length]
  have hneg : ∀ o : ℤ, o ∈ claimOffsets (fpMaxOffset fp1 fp2) →
      -o ∈ claimOffsets (fpMaxOffset fp1 fp2) := by
    intro o ho
    obtain ⟨c, hc⟩ := hdvd
    rcases (mem_claimOffsets _ o).mp ho with rfl | ⟨hlb, hub, hne, hmod⟩
    · simpa using ho
    · exact (mem_claimOffsets _ (-o)).mpr (Or.inr ⟨by omega, by omega,
        by omega, by omega⟩)
  rw [compare_eq_sup fp1 fp2, compare_eq_sup fp2 fp1]
  apply le_antisymm
  · apply Finset.sup'_le
    intro o ho
    rw [hm] at *
    rw [show compareFingerprintsWithOffset fp1 fp2 o =
        compareFingerprintsWithOffset fp2 fp1 (-o) from withOffset_comm _ _ o]
    exact Finset.le_sup' (compareFingerprintsWithOffset fp2 fp1) (hneg o ho)
  · apply Finset.sup'_le
    intro o ho
    rw [hm] at ho
    rw [show compareFingerprintsWithOffset fp2 fp1 o =
        compareFingerprintsWithOffset fp1 fp2 (-o) from withOffset_comm _ _ o]
    exact Finset.le_sup' (compareFingerprintsWithOffset fp1 fp2) (hneg o ho)

/-- Witness for the amended C9 at one-frame fingerprints, whose
`maxOffset` is 0 (divisible by 5). -/
theorem compare_symm_amended_witness :
    5 ∣ fpMaxOffset [zeroFeatures] [oneFeat] ∧
    compareFingerprints [zeroFeatures] [oneFeat] =
      compareFingerprints [oneFeat] [zeroFeatures] :=
  ⟨⟨0, rfl⟩, compare_symm_amended.2 [zeroFeatures] [oneFeat] ⟨0, rfl⟩⟩

/-- C10: on a non-empty all-zero spectrum, the rolloff threshold
`0.85 * 0 = 0` is reached at bin 0, so `calculateSpectralRolloff`
returns the frequency of bin 0, namely 0 — not the Nyquist frequency. -/
theorem rolloff_zero_spectrum_zero (spectrum : List ℝ) (sampleRate : ℝ)
    (hne : spectrum ≠ []) (hz : ∀ x ∈ spectrum, x = 0) :
    calculateSpectralRolloff spectrum sampleRate = 0 :=
  rolloff_zero_spectrum spectrum sampleRate hne hz

/-- Witness for C10 on the two-bin zero spectrum at sample rate 44100. -/
theorem rolloff_zero_spectrum_zero_witness :
    ([(0 : ℝ), 0] ≠ ([] : List ℝ)) ∧ (∀ x ∈ [(0 : ℝ), 0], x = 0) ∧
    calculateSpectralRolloff [(0 : ℝ), 0] 44100 = 0 :=
  ⟨by simp, by simp,
    rolloff_zero_spectrum_zero [(0 : ℝ), 0] 44100 (by simp) (by simp)⟩

/-- C3 counterexample: on the spectrum [0, 1, 0, 0] at sample rate 100
with the `subBass` band edges 20-60 Hz, the source maps the low edge by
`floor (1.6) = 1` (and the high edge by `ceil (4.8) = 5`, clamped to 4),
giving `sqrt (1/4) = 1/2`, while the round-based mapping the claim
describes gives bins [2, 4) and the value 0. -/
theorem band_energy_round_refuted :
    getBandEnergy [(0 : ℝ), 1, 0, 0] 20 60 100 ≠
      getBandEnergySpecRound [(0 : ℝ), 1, 0, 0] 20 60 100 := by
  have hlen : ([(0 : ℝ), 1, 0, 0] : List ℝ).length = 4 := rfl
  have hcode : getBandEnergy [(0 : ℝ), 1, 0, 0] 20 60 100 = 1 / 2 := by
    have hfl : ⌊(20 : ℝ) / (100 / 2) * ((4 : ℕ) : ℝ)⌋ = 1 := by norm_num
    have hcl : ⌈(60 : ℝ) / (100 / 2) * ((4 : ℕ) : ℝ)⌉ = 5 := by
      rw [show (60 : ℝ) / (100 / 2) * ((4 : ℕ) : ℝ) = 24 / 5 by norm_num,
        Int.ceil_eq_iff]
      norm_num
    simp only [getBandEnergy, hlen, hfl, hcl]
    have hmax : (0 : ℤ) ⊔ 1 = 1 := by decide
    have hmin : (5 : ℤ) ⊓ ((4 : ℕ) : ℤ) = 4 := by decide
    simp only [hmax, hmin]
    rw [if_neg (by decide)]
    simp only [show ((1 : ℤ)).toNat = 1 from rfl,
      show ((4 : ℤ) - 1).toNat = 3 from rfl,
      show List.range' 1 3 = [1, 2, 3] from rfl, List.foldl_cons,
      List.foldl_nil, List.getD_cons_zero, List.getD_cons_succ]
    norm_num
    rw [show (4 : ℝ) = 2 ^ 2 by norm_num, Real.sqrt_sq (by norm_num)]
    norm_num
  have hspec : getBandEnergySpecRound [(0 : ℝ), 1, 0, 0] 20 60 100 = 0 := by
    have hr1 : round ((20 : ℝ) / (100 / 2) * ((4 : ℕ) : ℝ)) = 2 := by
      norm_num [round_eq]
    have hr2 : round ((60 : ℝ) / (100 / 2) * ((4 : ℕ) : ℝ)) = 5 := by
      norm_num [round_eq]
    simp only [getBandEnergySpecRound, hlen, hr1, hr2]
    have hmax : (0 : ℤ) ⊔ 2 = 2 := by decide
    have hmin : (5 : ℤ) ⊓ ((4 : ℕ) : ℤ) = 4 := by decide
    simp only [hmax, hmin]
    rw [if_neg (by decide)]
    simp only [show ((2 : ℤ)).toNat = 2 from rfl,
      show ((4 : ℤ) - 2).toNat = 2 from rfl,
      show List.range' 2 2 = [2, 3] from rfl, List.foldl_cons,
      List.foldl_nil, List.getD_cons_zero, List.getD_cons_succ]
    norm_num
  rw [hcode, hspec]
  norm_num

/-- C3 amended: `getBandEnergy` maps the LOW band edge by
`floor ((freq/nyquist) * numBins)` and the HIGH edge by `ceil`, not both
by `round`; it clamps to `[0, numBins]`, returns
`sqrt ((sum of squared bins over the range) / (count + 1))` where
`count` is the number of bins summed, and returns 0 for an empty bin
range. -/
theorem band_energy_floor_ceil
    (spectrum : List ℝ) (lowFreq highFreq sampleRate : ℝ) :
    getBandEnergy spectrum lowFreq highFreq sampleRate =
      (if min ⌈highFreq / (sampleRate / 2) * (spectrum.length : ℝ)⌉
            (spectrum.length : ℤ) ≤
          max 0 ⌊lowFreq / (sampleRate / 2) * (spectrum.length : ℝ)⌋ then 0
       else
         Real.sqrt
           ((∑ i in Finset.Ico
               (max 0 ⌊lowFreq / (sampleRate / 2) * (spectrum.length : ℝ)⌋).toNat
               (min ⌈highFreq / (sampleRate / 2) * (spectrum.length : ℝ)⌉
                 (spectrum.length : ℤ)).toNat,
               spectrum.getD i 0 ^ 2) /
             (((min ⌈highFreq / (sampleRate / 2) * (spectrum.length : ℝ)⌉
                 (spectrum.length : ℤ) : ℤ) : ℝ) -
               ((max 0 ⌊lowFreq / (sampleRate / 2) * (spectrum.length : ℝ)⌋ : ℤ) : ℝ)
               + 1))) :=
  getBandEnergy_eq spectrum lowFreq highFreq sampleRate

/-- C5 counterexample: with threshold 0 and a non-empty library whose
single (hence best-scoring) entry scores 0, the best score 0 satisfies
`bestScore >= threshold`, yet `matchAudio` returns `none` rather than
that entry, because `bestMatch` is only set on a STRICT improvement over
the initial best score 0. -/
theorem match_best_entry_claim_false :
    (matchAudio [] dbEmptyFp 0 none).confidence = 0 ∧
    (0 : ℝ) ≤ (matchAudio [] dbEmptyFp 0 none).confidence ∧
    (matchAudio [] dbEmptyFp 0 none).matchId ≠ some "songA" := by
  have hres : matchAudio [] dbEmptyFp 0 none =
      ⟨none, 0, [⟨"songA", 0, "alice"⟩]⟩ := by
    simp [matchAudio, matchStep, skipEntry, dbEmptyFp,
      compareFingerprints_nil_left]
  rw [hres]
  simp

/-- C5 amended: `matchAudio` returns `none` when the best score is
strictly below the threshold; a returned identifier always implies
`threshold <= bestScore`; the returned confidence bounds the score of
every admitted entry; and when the best score reaches the threshold AND
is strictly positive, the returned identifier is that of an admitted
entry attaining the best score.  (Positivity is required: an all-zero
best score never sets `bestMatch`, as the counterexample shows.) -/
theorem match_threshold_amended (query : Fingerprint)
    (db : List LibraryEntry) (threshold : ℝ) (uf : Option String) :
    ((matchAudio query db threshold uf).confidence < threshold →
      (matchAudio query db threshold uf).matchId = none) ∧
    (∀ id, (matchAudio query db threshold uf).matchId = some id →
      threshold ≤ (matchAudio query db threshold uf).confidence) ∧
    (∀ e ∈ db, skipEntry uf e.userId = false →
      compareFingerprints query e.fingerprint ≤
        (matchAudio query db threshold uf).confidence) ∧
    (threshold ≤ (matchAudio query db threshold uf).confidence →
      0 < (matchAudio query db threshold uf).confidence →
      ∃ e ∈ db, skipEntry uf e.userId = false ∧
        (matchAudio query db threshold uf).matchId = some e.audioId ∧
        compareFingerprints query e.fingerprint =
          (matchAudio query db threshold uf).confidence) := by
  obtain ⟨h1, h2, h3⟩ := matchFold_spec query uf db (none, 0, [])
  dsimp only at h1 h2 h3
  simp only [matchAudio]
  by_cases hth :
      threshold ≤ (db.foldl (matchStep query uf) (none, 0, [])).2.1
  · rw [if_pos hth]
    dsimp only
    refine ⟨fun hlt => absurd hth (not_le.mpr hlt), fun id _ => hth, h2,
      fun _ hpos => ?_⟩
    rcases h3 with ⟨_, hb⟩ | ⟨e, hmem, hsk, ha, hb, _⟩
    · rw [hb] at hpos
      exact absurd hpos (lt_irrefl 0)
    · exact ⟨e, hmem, hsk, ha, hb.symm⟩
  · rw [if_neg hth]
    dsimp only
    refine ⟨fun _ => rfl, fun id hid => ?_, h2, fun hth2 _ => ?_⟩
    · cases hid
    · exact absurd hth2 hth

/-- Witness for the amended C5: an empty query against the empty
fingerprint library scores 0 below threshold 1/2, so no identifier is
returned. -/
theorem match_threshold_amended_witness :
    (matchAudio [] dbEmptyFp (1 / 2) none).confidence < 1 / 2 ∧
    (matchAudio [] dbEmptyFp (1 / 2) none).matchId = none := by
  have hconf : (matchAudio [] dbEmptyFp (1 / 2) none).confidence = 0 := by
    simp [matchAudio, matchStep, skipEntry, dbEmptyFp,
      compareFingerprints_nil_left]
  refine ⟨by rw [hconf]; norm_num, ?_⟩
  exact (match_threshold_amended [] dbEmptyFp (1 / 2) none).1
    (by rw [hconf]; norm_num)

/-- C8 counterexample: an owner filter that is non-null but the EMPTY
string is falsy in the source guard `userId && ...`, so filtering is
silently disabled: the returned identifier "songA" belongs to owner
"alice", a different owner than the filter string "". -/
theorem owner_filter_claim_false :
    (matchAudio [zeroFeatures] dbAlice (1 / 2) (some "")).matchId =
      some "songA" ∧ "alice" ≠ "" := by
  have hself : compareFingerprints [zeroFeatures] [zeroFeatures] = 1 :=
    compareFingerprints_self _ (by simp)
  refine ⟨?_, by simp⟩
  have hres : matchAudio [zeroFeatures] dbAlice (1 / 2) (some "") =
      ⟨some "songA", 1, [⟨"songA", 1, "alice"⟩]⟩ := by
    simp [matchAudio, matchStep, skipEntry, dbAlice, hself]
    norm_num
  rw [hres]

/-- C8 amended: with a non-null AND non-empty (truthy) owner filter `u`,
every identifier `matchAudio` returns belongs to an entry owned by `u`,
and every element of the score list records an entry owned by `u`;
entries of other owners are skipped before scoring.  (Non-emptiness is
required: the empty-string filter is falsy and disables filtering, as
the counterexample shows.) -/
theorem owner_filter_amended (query : Fingerprint)
    (db : List LibraryEntry) (threshold : ℝ) (u : String) (hu : u ≠ "") :
    (∀ id, (matchAudio query db threshold (some u)).matchId = some id →
      ∃ e ∈ db, e.userId = u ∧ id = e.audioId) ∧
    ∀ s ∈ (matchAudio query db threshold (some u)).allScores,
      s.userId = u ∧ ∃ e ∈ db, e.userId = u ∧ s.audioId = e.audioId := by
  have hskipf : ∀ owner, skipEntry (some u) owner = false ↔ owner = u := by
    intro owner
    simp [skipEntry, hu]
  obtain ⟨h1, h2, h3⟩ := matchFold_spec query (some u) db (none, 0, [])
  dsimp only at h1 h2 h3
  have hscores : ∀ s ∈ (db.foldl (matchStep query (some u))
      (none, 0, ([] : List ScoreEntry))).2.2,
      s.userId = u ∧ ∃ e ∈ db, e.userId = u ∧ s.audioId = e.audioId := by
    intro s hs
    rcases matchFold_scores query (some u) db (none, 0, []) s hs with
      hin | ⟨e, hmem, hsk, hai, _, hui⟩
    · exact absurd hin (List.not_mem_nil s)
    · have heu : e.userId = u := (hskipf e.userId).mp hsk
      refine ⟨?_, e, hmem, heu, hai⟩
      rw [hui, heu, if_neg hu]
  have hmatch : ∀ id,
      (db.foldl (matchStep query (some u)) (none, 0, [])).1 = some id →
      ∃ e ∈ db, e.userId = u ∧ id = e.audioId := by
    intro id hid
    rcases h3 with ⟨ha, _⟩ | ⟨e, hmem, hsk, ha, _, _⟩
    · rw [ha] at hid
      cases hid
    · rw [ha] at hid
      exact ⟨e, hmem, (hskipf e.userId).mp hsk,
        (Option.some.inj hid).symm⟩
  simp only [matchAudio]
  by_cases hth :
      threshold ≤ (db.foldl (matchStep query (some u)) (none, 0, [])).2.1
  · rw [if_pos hth]
    exact ⟨hmatch, hscores⟩
  · rw [if_neg hth]
    refine ⟨fun id hid => ?_, hscores⟩
    cases hid

/-- Witness for the amended C8: with the truthy filter "alice" on a
two-owner library, the other owner's identifier "songB" is never
returned. -/
theorem owner_filter_amended_witness :
    ("alice" : String) ≠ "" ∧
    (matchAudio [zeroFeatures] dbTwoOwners (1 / 2) (some "alice")).matchId ≠
      some "songB" := by
  refine ⟨by simp, fun hid => ?_⟩
  obtain ⟨e, hmem, heu, hid2⟩ :=
    (owner_filter_amended [zeroFeatures] dbTwoOwners (1 / 2) "alice"
      (by simp)).1 "songB" hid
  rcases List.mem_cons.mp hmem with rfl | hm2
  · exact absurd hid2 (by decide)
  · rcases List.mem_cons.mp hm2 with rfl | hm3
    · exact absurd heu (by decide)
    · exact absurd hm3 (List.not_mem_nil e)

end WhatWasThat
